import Mathlib

/-!
Shallow embedding of the tutorial content-assembly pipeline implemented in
`src/components/Tutorial.js`: project-state tracking across steps,
code-block substitution with line diffs, step and section assembly, and
structural validation of the child sequence.

JavaScript `Map` values become insertion-ordered association lists, thrown
errors become `Except String`, and React element trees become the `Child`
inductive below.
-/

namespace DevSite

/-- A change object produced by the line diff: a run of text with flags
telling whether the run was added or removed. An unchanged (context) run
has both flags false. Mirrors the change objects returned by `diffLines`
of the external `diff` library. -/
structure DiffPart where
  value : String
  added : Bool
  removed : Bool
deriving DecidableEq, Repr

/-- The per-file record kept in the project state: the file's current code
and language (the `{ code, language }` objects of `Tutorial.js`). -/
structure FileState where
  code : String
  language : String
deriving DecidableEq, Repr

/-- The simulated project file tree: an insertion-ordered mapping from file
name to `FileState`, embedding the JavaScript `Map` threaded through
`Tutorial.js`. Keys are `Option String` because the external code-block
parser may supply no `fileName` for a block. -/
abbrev ProjectState := List (Option String × FileState)

/-- Embeds `Map.prototype.get`: the value at the first entry whose key
matches, or `none` when the key is absent. -/
def psGet : ProjectState → Option String → Option FileState
  | [], _ => none
  | (k, v) :: m, f => if k == f then some v else psGet m f

/-- Embeds `Map.prototype.has`: a JavaScript `Map` has a key exactly when
`get` returns a value. -/
def psHas (m : ProjectState) (f : Option String) : Bool :=
  (psGet m f).isSome

/-- Embeds `Map.prototype.set`: replace the value at an existing key while
keeping its insertion position, otherwise append the new entry at the
end. -/
def psSet : ProjectState → Option String → FileState → ProjectState
  | [], f, v => [(f, v)]
  | (k, w) :: m, f, v => if k == f then (f, v) :: m else (k, w) :: psSet m f v

/-- Embeds `const clone = (map) => new Map(map)` (Tutorial.js line 92).
Copying a `Map` is the identity on the underlying association; the copy
exists in JavaScript only so that the prior snapshot is never mutated,
which the pure embedding gives intrinsically. -/
def clone (map : ProjectState) : ProjectState := map

/-- The parsed properties of a code block. Modelled from the spec: "for
code blocks, parsed `{ code, language, fileName }` properties supplied by
an external code-block parser" (`src/utils/parseCodeBlockProps` is not
under src/). -/
structure CodeBlockProps where
  fileName : Option String
  code : String
  language : String
deriving DecidableEq, Repr

/-- A markup-derived child node. `elem` covers MDX elements carrying a
content-type discriminator (`Project`, `TutorialStep`, `TutorialSection`,
or any other type) together with their children and the optional step
annotations added by `gatherSteps`; `codeBlock` covers fenced code blocks
with the properties the external parser supplies plus the shell-command
flag; `editor` is the `TutorialEditor` replacement node emitted by
`swapCodeBlocks` (its React `key` prop, pure reconciliation metadata, is
not modelled). -/
inductive Child where
  | elem (mdxType : String) (children : List Child)
      (stepNumber : Option Nat) (totalSteps : Option Nat)
  | codeBlock (fileName : Option String) (code : String) (language : String)
      (shell : Bool)
  | editor (focusedFileName : Option String) (diff : List DiffPart)
      (project : ProjectState)
deriving Repr

/-- Modelled from the spec: `isMdxType` (`src/utils/mdx`, not under src/)
tests a node's content-type discriminator string; only MDX elements carry
one. -/
def isMdxType : Child → String → Bool
  | .elem t _ _ _, s => t == s
  | _, _ => false

/-- Modelled from the spec: `isCodeBlock` (`src/utils/codeBlock`, not
under src/) recognises fenced code-block nodes. -/
def isCodeBlock : Child → Bool
  | .codeBlock _ _ _ _ => true
  | _ => false

/-- Modelled from the spec: `isShellCommand` (`src/utils/codeBlock`, not
under src/) recognises, among code blocks, shell-command blocks. -/
def isShellCommand : Child → Bool
  | .codeBlock _ _ _ shell => shell
  | _ => false

/-- Modelled from the spec: the external code-block parser returns the
parsed `{ code, language, fileName }` of a code-block node. -/
def parseCodeBlockProps : Child → CodeBlockProps
  | .codeBlock fileName code language _ => ⟨fileName, code, language⟩
  | _ => ⟨none, "", ""⟩

/-- The flattened children of a node, embedding
`Children.toArray(element.props.children)`: MDX elements expose their
child list; code blocks and editor nodes expose no element children. -/
def childrenOf : Child → List Child
  | .elem _ children _ _ => children
  | _ => []

/-! ### Line diff

`diffLines` comes from the external `diff` npm package. Modelled from the
library's documented behaviour: tokenize both sides into lines (each line
keeps its trailing newline), compute a longest-common-subsequence-optimal
edit script (the library's Myers algorithm is LCS-optimal), and return the
full run of parts — removed runs, added runs, and unchanged context runs —
with removed text preceding the added text that replaces it. -/

/-- Tokenizer helper: accumulate characters of the current line (in
reverse) while walking the remaining characters. -/
def toLinesGo : List Char → List Char → List String
  | [], acc => if acc.isEmpty then [] else [String.mk acc.reverse]
  | ch :: rest, acc =>
    if ch = '\n' then String.mk (acc.reverse ++ ['\n']) :: toLinesGo rest []
    else toLinesGo rest (ch :: acc)

/-- Split a string into lines, each line keeping its trailing newline,
matching the `diff` library's line tokenizer. -/
def toLines (s : String) : List String :=
  toLinesGo s.data []

/-- Longest common subsequence of two line lists, used to choose the
edit-script branch of `diffLists`. The fuel is structural-recursion
bookkeeping only: every call site supplies the total length of the two
lists, each recursive call spends one unit while the total length shrinks
by at least one, so the zero-fuel fallback is never reached. -/
def lcsGo : Nat → List String → List String → List String
  | _, [], _ => []
  | _, _, [] => []
  | fuel + 1, a :: as, b :: bs =>
    if a = b then a :: lcsGo fuel as bs
    else
      let r₁ := lcsGo fuel (a :: as) bs
      let r₂ := lcsGo fuel as (b :: bs)
      if r₂.length ≥ r₁.length then r₂ else r₁
  | 0, _, _ => []

/-- Longest common subsequence of two line lists. -/
def lcs (as bs : List String) : List String :=
  lcsGo (as.length + bs.length) as bs

/-- LCS-optimal edit script between two line lists: unchanged lines are
kept as context parts, deletions are emitted before the insertions that
replace them. The fuel plays the same bookkeeping role as in `lcsGo`. -/
def diffListsGo : Nat → List String → List String → List DiffPart
  | _, [], [] => []
  | fuel + 1, [], b :: bs => ⟨b, true, false⟩ :: diffListsGo fuel [] bs
  | fuel + 1, a :: as, [] => ⟨a, false, true⟩ :: diffListsGo fuel as []
  | fuel + 1, a :: as, b :: bs =>
    if a = b then ⟨a, false, false⟩ :: diffListsGo fuel as bs
    else if (lcs as (b :: bs)).length ≥ (lcs (a :: as) bs).length then
      ⟨a, false, true⟩ :: diffListsGo fuel as (b :: bs)
    else
      ⟨b, true, false⟩ :: diffListsGo fuel (a :: as) bs
  | 0, _, _ => []

/-- LCS-optimal edit script between two line lists. -/
def diffLists (as bs : List String) : List DiffPart :=
  diffListsGo (as.length + bs.length) as bs

/-- Modelled from the external `diff` library: `diffLines(oldStr, newStr)`
as used by `swapCodeBlocks` (Tutorial.js line 124). -/
def diffLines (oldStr newStr : String) : List DiffPart :=
  diffLists (toLines oldStr) (toLines newStr)

/-! ### Code-block substitution -/

/-- The error thrown by `swapCodeBlocks` (Tutorial.js lines 104-109) when a
qualifying code block names no file of the current project state; the
message embeds the block's language and code. -/
def missingFileMessage (language code : String) : String :=
  "The following block does not have a file name that matches the project. Please ensure the code block has a `fileName` specified:\n\n```"
    ++ language ++ "\n" ++ code ++ "\n```\n"

/-- One iteration of the `swapCodeBlocks` reduce (Tutorial.js lines
96-129): non-code-block or shell-command children pass through unchanged;
a qualifying code block must name an existing file (the source guards with
`Map.has` and then destructures `Map.get`; here the two are one match on
`psGet`, equivalent because `psHas` is `(psGet …).isSome`), and on success
the block is replaced by a `TutorialEditor` node carrying the line diff
against the file's previous code and the advanced snapshot. -/
def swapBlock (child : Child) (currentProjectState : ProjectState) :
    Except String (Child × ProjectState) :=
  if !isCodeBlock child || isShellCommand child then
    .ok (child, currentProjectState)
  else
    let props := parseCodeBlockProps child
    match psGet currentProjectState props.fileName with
    | none => .error (missingFileMessage props.language props.code)
    | some prev =>
      let projectState :=
        psSet (clone currentProjectState) props.fileName
          ⟨props.code, props.language⟩
      .ok
        (Child.editor props.fileName (diffLines prev.code props.code)
          projectState,
        projectState)

/-- The `swapCodeBlocks` reduce over a step's children (Tutorial.js lines
95-132), accumulating the replaced children and threading the project
state; a thrown error aborts the whole traversal. -/
def swapBlocksGo : List Child → ProjectState →
    Except String (List Child × ProjectState)
  | [], ps => .ok ([], ps)
  | child :: rest, ps =>
    match swapBlock child ps with
    | .error e => .error e
    | .ok (c, ps') =>
      match swapBlocksGo rest ps' with
      | .error e => .error e
      | .ok (cs, psF) => .ok (c :: cs, psF)

/-- Embeds `swapCodeBlocks(stepElement, initialProjectState)` (Tutorial.js
lines 94-133): substitute every qualifying code block among the step's
children, returning the new child list and the final project state. -/
def swapCodeBlocks (stepElement : Child) (initialProjectState : ProjectState) :
    Except String (List Child × ProjectState) :=
  swapBlocksGo (childrenOf stepElement) initialProjectState

/-! ### Step and section assembly -/

/-- Embeds `cloneElement(stepElement, { children, stepNumber, totalSteps })`
(Tutorial.js lines 80-84): an MDX element is copied with the substituted
children and the step annotations. Only MDX elements carry props; for the
remaining node kinds (never step elements of a validated tutorial) the
clone is the node itself. -/
def setStepProps (element : Child) (children : List Child)
    (stepNumber totalSteps : Nat) : Child :=
  match element with
  | .elem t _ _ _ => .elem t children (some stepNumber) (some totalSteps)
  | e => e

/-- Embeds `cloneElement(child, { children: steps })` (Tutorial.js line 56):
copy an MDX element with new children, keeping its other props. -/
def setChildren (element : Child) (children : List Child) : Child :=
  match element with
  | .elem t _ sn ts => .elem t children sn ts
  | e => e

/-- The `gatherSteps` reduce (Tutorial.js lines 69-89) with the running
index made explicit: each child is passed through `swapCodeBlocks`, then
cloned with the substituted children, its 1-based ordinal `idx + 1`, and
`totalSteps` equal to the substituted children's count. -/
def gatherStepsGo : List Child → ProjectState → Nat →
    Except String (List Child × ProjectState)
  | [], ps, _ => .ok ([], ps)
  | stepElement :: rest, ps, idx =>
    match swapCodeBlocks stepElement ps with
    | .error e => .error e
    | .ok (children, projectState) =>
      match gatherStepsGo rest projectState (idx + 1) with
      | .error e => .error e
      | .ok (steps, psF) =>
        .ok (setStepProps stepElement children (idx + 1) children.length
              :: steps,
            psF)

/-- Embeds `gatherSteps(children, initialProjectState)` (Tutorial.js lines
68-90): annotate every step with its ordinal and substituted children,
threading the project state; returns the steps and the final state. -/
def gatherSteps (children : List Child) (initialProjectState : ProjectState) :
    Except String (List Child × ProjectState) :=
  gatherStepsGo children initialProjectState 0

/-- The `gatherSections` reduce (Tutorial.js lines 44-63) with the memo's
`currentProjectState` kept in the result: a `TutorialSection` child has its
children assembled by `gatherSteps` and advances the project state; every
other child is appended to the output unchanged with the state untouched. -/
def gatherSectionsGo : List Child → ProjectState →
    Except String (List Child × ProjectState)
  | [], ps => .ok ([], ps)
  | child :: rest, ps =>
    if isMdxType child "TutorialSection" then
      match gatherSteps (childrenOf child) ps with
      | .error e => .error e
      | .ok (steps, projectState) =>
        match gatherSectionsGo rest projectState with
        | .error e => .error e
        | .ok (elements, psF) => .ok (setChildren child steps :: elements, psF)
    else
      match gatherSectionsGo rest ps with
      | .error e => .error e
      | .ok (elements, psF) => .ok (child :: elements, psF)

/-- Embeds `gatherSections(children, initialProjectState)` (Tutorial.js
lines 43-66): the reduce returns only the accumulated elements, dropping
the final project state. -/
def gatherSections (children : List Child)
    (initialProjectState : ProjectState) : Except String (List Child) :=
  match gatherSectionsGo children initialProjectState with
  | .error e => .error e
  | .ok (elements, _) => .ok elements

/-! ### Project-state initializers -/

/-- Embeds `parseProjectStateFromConfig(configElement)` (Tutorial.js lines
135-143): fold the config's non-shell code-block children into a map,
keeping the first occurrence of each file name. -/
def parseProjectStateFromConfig (configElement : Child) : ProjectState :=
  ((childrenOf configElement).filter
      (fun child => isCodeBlock child && !isShellCommand child)).foldl
    (fun map child =>
      if psHas map (parseCodeBlockProps child).fileName then map
      else
        psSet map (parseCodeBlockProps child).fileName
          ⟨(parseCodeBlockProps child).code,
            (parseCodeBlockProps child).language⟩)
    []

/-- Embeds `findCodeBlocksInTutorialStep(stepElement)` (Tutorial.js lines
166-170): the step's non-shell code-block children. -/
def findCodeBlocksInTutorialStep (stepElement : Child) : List Child :=
  (childrenOf stepElement).filter
    (fun child => isCodeBlock child && !isShellCommand child)

/-- Embeds `findCodeBlocksInTutorialSection(sectionElement)` (Tutorial.js
lines 172-176): the non-shell code blocks of each step of the section, in
document order. -/
def findCodeBlocksInTutorialSection (sectionElement : Child) : List Child :=
  (childrenOf sectionElement).flatMap findCodeBlocksInTutorialStep

/-- The `switch` of `parseProjectStateFromChildren` (Tutorial.js lines
148-155): a `TutorialStep` contributes its code blocks, a
`TutorialSection` the code blocks of its steps, anything else nothing. -/
def codeBlocksOfChild (child : Child) : List Child :=
  if isMdxType child "TutorialStep" then findCodeBlocksInTutorialStep child
  else if isMdxType child "TutorialSection" then
    findCodeBlocksInTutorialSection child
  else []

/-- Embeds `parseProjectStateFromChildren(children)` (Tutorial.js lines
145-164): collect all step/section code blocks in document order, then
fold them into a map seeding each first-seen file name with empty code and
that occurrence's language. -/
def parseProjectStateFromChildren (children : List Child) : ProjectState :=
  (children.flatMap codeBlocksOfChild).foldl
    (fun map cb =>
      if psHas map (parseCodeBlockProps cb).fileName then map
      else
        psSet map (parseCodeBlockProps cb).fileName
          ⟨"", (parseCodeBlockProps cb).language⟩)
    []

/-! ### Validation -/

/-- Embeds `Array.prototype.findIndex`: the index of the first match, or
`-1` when no child matches. -/
def findIndex (p : Child → Bool) (children : List Child) : Int :=
  match children.findIdx? p with
  | some i => (i : Int)
  | none => -1

/-- The error thrown by `validateChildren` (Tutorial.js lines 188-190)
when a `Project` element is present but not the first child. -/
def projectNotFirstMessage : String :=
  "Tutorial: A `Project` element was detected but does not reside as the first child of the `Tutorial`. Please move it to the first child of the `Tutorial`."

/-- The error thrown by `validateSections` (Tutorial.js lines 201-203)
when a `TutorialStep` sits outside every `TutorialSection`. -/
def stepOutsideSectionMessage : String :=
  "Tutorial: A `TutorialStep` was detected outside of a `TutorialSection`. Please ensure the element is wrapped in a `TutorialSection`."

/-- The error thrown by `validateTutorialSteps` (Tutorial.js lines
210-213) when a child of an unsectioned tutorial is not a `TutorialStep`. -/
def stepsOnlyMessage : String :=
  "Tutorial: Every child of a `Tutorial` must be wrapped in a `TutorialStep`. If you meant to include a non `TutorialStep` in the `Tutorial`, wrap each section in a `TutorialSection` or move the content inside of the `TutorialStep`."

/-- Embeds `validateSections(children)` (Tutorial.js lines 197-205). -/
def validateSections (children : List Child) : Except String Unit :=
  let isValid := children.all (fun child => !isMdxType child "TutorialStep")
  if !isValid then .error stepOutsideSectionMessage else .ok ()

/-- Embeds `validateTutorialSteps(children)` (Tutorial.js lines 207-215). -/
def validateTutorialSteps (children : List Child) : Except String Unit :=
  let isValid := children.all (fun child => isMdxType child "TutorialStep")
  if !isValid then .error stepsOnlyMessage else .ok ()

/-- Embeds `validateChildren(children)` (Tutorial.js lines 178-195): a
`Project` element at a positive index is an error; then the first child is
unconditionally dropped (`children.slice(1)`) and the remainder is checked
by `validateSections` when any child is a `TutorialSection`, by
`validateTutorialSteps` otherwise. -/
def validateChildren (children : List Child) : Except String Unit :=
  let isSectioned :=
    children.any (fun child => isMdxType child "TutorialSection")
  if findIndex (fun child => isMdxType child "Project") children > 0 then
    .error projectNotFirstMessage
  else
    let rest := children.drop 1
    if isSectioned then validateSections rest else validateTutorialSteps rest

/-! ### The Tutorial render -/

/-- Embeds the `Tutorial` component body (Tutorial.js lines 10-37).
Modelled from the spec for the part outside src/: the validation call is
wrapped in `useOnMount` (`src/hooks/useOnMount`, not under src/), and the
spec's control flow "normalize → validate → (if sectioned) assemble per
section else assemble steps directly" has the validation run before any
assembly, so the render applies `validateChildren` first and aborts on its
error. Afterwards: a leading `Project` element is split off, the initial
project state is parsed from it (or inferred from the children), and the
children are assembled per section or directly as steps. -/
def Tutorial (children : List Child) : Except String (List Child) :=
  match validateChildren children with
  | .error e => .error e
  | .ok _ =>
    let isSectioned :=
      children.any (fun child => isMdxType child "TutorialSection")
    let projectElement : Option Child :=
      match children with
      | c :: _ => if isMdxType c "Project" then some c else none
      | [] => none
    let rest :=
      match projectElement with
      | some _ => children.drop 1
      | none => children
    let initialProjectState :=
      match projectElement with
      | some projectEl => parseProjectStateFromConfig projectEl
      | none => parseProjectStateFromChildren rest
    if isSectioned then gatherSections rest initialProjectState
    else
      match gatherSteps rest initialProjectState with
      | .error e => .error e
      | .ok (steps, _) => .ok steps

/-! ### Lemmas about the project-state map -/

theorem psGet_psSet (m : ProjectState) (f f' : Option String) (v : FileState) :
    psGet (psSet m f v) f' = if f = f' then some v else psGet m f' := by
  induction m with
  | nil => simp [psGet, psSet]
  | cons e m ih =>
    obtain ⟨k, w⟩ := e
    by_cases hk : k = f
    · subst hk
      by_cases hf : k = f'
      · simp [psSet, psGet, hf]
      · simp [psSet, psGet, hf]
    · by_cases hf : f = f'
      · subst hf
        simp [psSet, psGet, hk, ih, Ne.symm hk]
      · simp [psSet, psGet, hk, ih, hf]

theorem psHas_eq_false_iff (m : ProjectState) (f : Option String) :
    psHas m f = false ↔ psGet m f = none := by
  unfold psHas
  cases psGet m f <;> simp

/-- First-wins characterization of the initializer folds: looking a file
name up in the fold of `blocks` over an accumulator `m` gives the
accumulator's entry when present, otherwise the entry built (by `g`) from
the first block carrying that file name. -/
theorem foldl_firstWins_get (g : Child → FileState) (blocks : List Child)
    (m : ProjectState) (f : Option String) :
    psGet (blocks.foldl (fun map c =>
        if psHas map (parseCodeBlockProps c).fileName then map
        else psSet map (parseCodeBlockProps c).fileName (g c)) m) f
      = (psGet m f).or
          ((blocks.find? (fun c => (parseCodeBlockProps c).fileName == f)).map
            g) := by
  induction blocks generalizing m with
  | nil => cases hm : psGet m f <;> simp [hm]
  | cons c blocks ih =>
    rw [List.foldl_cons, ih, List.find?]
    by_cases hkey : (parseCodeBlockProps c).fileName = f
    · rw [show ((parseCodeBlockProps c).fileName == f) = true by simp [hkey]]
      by_cases hh : psHas m (parseCodeBlockProps c).fileName
      · rw [if_pos hh]
        obtain ⟨v, hv⟩ := Option.isSome_iff_exists.mp (hkey ▸ hh)
        simp [hv]
      · rw [if_neg hh]
        have hnone : psGet m (parseCodeBlockProps c).fileName = none :=
          (psHas_eq_false_iff _ _).mp (by simpa using hh)
        simp [psGet_psSet, hkey, hkey ▸ hnone]
    · rw [show ((parseCodeBlockProps c).fileName == f) = false by simp [hkey]]
      by_cases hh : psHas m (parseCodeBlockProps c).fileName
      · rw [if_pos hh]
      · rw [if_neg hh]
        simp [psGet_psSet, hkey]

/-! ### Lemmas about the diff and the assembly folds -/

theorem diffListsGo_self (xs : List String) :
    ∀ fuel, xs.length ≤ fuel →
      ∀ p ∈ diffListsGo fuel xs xs, p.added = false ∧ p.removed = false := by
  induction xs with
  | nil =>
    intro fuel _ p hp
    simp [diffListsGo] at hp
  | cons x xs ih =>
    intro fuel hfuel p hp
    cases fuel with
    | zero => simp at hfuel
    | succ fuel =>
      rw [show diffListsGo (fuel + 1) (x :: xs) (x :: xs)
            = ⟨x, false, false⟩ :: diffListsGo fuel xs xs by
          simp [diffListsGo]] at hp
      rcases List.mem_cons.mp hp with h | h
      · simp [h]
      · exact ih fuel (by simpa using Nat.le_of_succ_le_succ hfuel) p h

theorem diffLines_self (s : String) :
    ∀ p ∈ diffLines s s, p.added = false ∧ p.removed = false := by
  unfold diffLines diffLists
  exact diffListsGo_self _ _ (by omega)

theorem swapBlocksGo_append (l₁ l₂ : List Child) (ps : ProjectState) :
    swapBlocksGo (l₁ ++ l₂) ps
      = match swapBlocksGo l₁ ps with
        | .error e => .error e
        | .ok (cs, ps') =>
          match swapBlocksGo l₂ ps' with
          | .error e => .error e
          | .ok (cs', psF) => .ok (cs ++ cs', psF) := by
  induction l₁ generalizing ps with
  | nil =>
    simp only [List.nil_append, swapBlocksGo]
    cases h : swapBlocksGo l₂ ps with
    | error e => rfl
    | ok x => rfl
  | cons c l₁ ih =>
    simp only [List.cons_append, swapBlocksGo, List.append_eq]
    cases swapBlock c ps with
    | error e => rfl
    | ok x =>
      obtain ⟨c', ps'⟩ := x
      dsimp only
      rw [ih]
      cases swapBlocksGo l₁ ps' with
      | error e => rfl
      | ok y =>
        obtain ⟨cs, psM⟩ := y
        dsimp only
        cases swapBlocksGo l₂ psM with
        | error e => rfl
        | ok z => obtain ⟨cs', psF⟩ := z; rfl

theorem gatherSectionsGo_append (l₁ l₂ : List Child) (ps : ProjectState) :
    gatherSectionsGo (l₁ ++ l₂) ps
      = match gatherSectionsGo l₁ ps with
        | .error e => .error e
        | .ok (els, ps') =>
          match gatherSectionsGo l₂ ps' with
          | .error e => .error e
          | .ok (els', psF) => .ok (els ++ els', psF) := by
  induction l₁ generalizing ps with
  | nil =>
    simp only [List.nil_append, gatherSectionsGo]
    cases h : gatherSectionsGo l₂ ps with
    | error e => rfl
    | ok x => rfl
  | cons c l₁ ih =>
    simp only [List.cons_append, gatherSectionsGo, List.append_eq]
    by_cases hc : isMdxType c "TutorialSection"
    · rw [if_pos hc, if_pos hc]
      cases gatherSteps (childrenOf c) ps with
      | error e => rfl
      | ok x =>
        obtain ⟨steps, ps'⟩ := x
        dsimp only
        rw [ih]
        cases gatherSectionsGo l₁ ps' with
        | error e => rfl
        | ok y =>
          obtain ⟨els, psM⟩ := y
          dsimp only
          cases gatherSectionsGo l₂ psM with
          | error e => rfl
          | ok z => obtain ⟨els', psF⟩ := z; rfl
    · rw [if_neg hc, if_neg hc, ih]
      cases gatherSectionsGo l₁ ps with
      | error e => rfl
      | ok y =>
        obtain ⟨els, psM⟩ := y
        dsimp only
        cases gatherSectionsGo l₂ psM with
        | error e => rfl
        | ok z => obtain ⟨els', psF⟩ := z; rfl

/-- Index-by-index specification of the `gatherSteps` fold, generalized
over the starting index `n`: the output has one element per input child,
and the `i`-th output is the `i`-th input cloned with its substituted
children, ordinal `n + i + 1`, and the substituted children's count. -/
theorem gatherStepsGo_spec (cs : List Child) :
    ∀ (ps : ProjectState) (n : Nat) (steps : List Child) (psF : ProjectState),
      gatherStepsGo cs ps n = .ok (steps, psF) →
      steps.length = cs.length ∧
      ∀ i (hi : i < cs.length) (hi' : i < steps.length),
        ∃ subbed psIn psOut,
          swapCodeBlocks (cs.get ⟨i, hi⟩) psIn = .ok (subbed, psOut) ∧
          steps.get ⟨i, hi'⟩
            = setStepProps (cs.get ⟨i, hi⟩) subbed (n + i + 1)
                subbed.length := by
  induction cs with
  | nil =>
    intro ps n steps psF h
    simp only [gatherStepsGo, Except.ok.injEq, Prod.mk.injEq] at h
    obtain ⟨h1, _⟩ := h
    subst h1
    exact ⟨rfl, fun i hi => absurd hi (Nat.not_lt_zero i)⟩
  | cons c cs ih =>
    intro ps n steps psF h
    simp only [gatherStepsGo] at h
    cases hs : swapCodeBlocks c ps with
    | error e => rw [hs] at h; exact absurd h (by simp)
    | ok x =>
      obtain ⟨children, ps'⟩ := x
      rw [hs] at h
      dsimp only at h
      cases hr : gatherStepsGo cs ps' (n + 1) with
      | error e => rw [hr] at h; exact absurd h (by simp)
      | ok y =>
        obtain ⟨rest, psF'⟩ := y
        rw [hr] at h
        simp only [Except.ok.injEq, Prod.mk.injEq] at h
        obtain ⟨h1, h2⟩ := h
        subst h1
        obtain ⟨ihlen, ihget⟩ := ih ps' (n + 1) rest psF' hr
        refine ⟨by simpa using ihlen, ?_⟩
        intro i hi hi'
        cases i with
        | zero => exact ⟨children, ps, ps', hs, rfl⟩
        | succ i =>
          obtain ⟨subbed, psIn, psOut, hswap, hget⟩ :=
            ihget i (Nat.lt_of_succ_lt_succ hi)
              (Nat.lt_of_succ_lt_succ hi')
          refine ⟨subbed, psIn, psOut, hswap, ?_⟩
          have : n + 1 + i + 1 = n + (i + 1) + 1 := by omega
          rw [show ((setStepProps c children (n + 1) children.length :: rest
                : List Child).get ⟨i + 1, hi'⟩)
              = rest.get ⟨i, Nat.lt_of_succ_lt_succ hi'⟩ from rfl,
            hget, this]
          rfl

/-! ### Claims -/

/-- C1: for every step child that is a qualifying (non-shell) code block
whose file name is absent from the current project state — the state after
the children before it were processed — `swapCodeBlocks` raises an error,
so no editor node and no advanced state are produced (the error carries no
state, and the input state, an immutable value here, is untouched), and
the error message contains the offending block's code and language. -/
theorem swapCodeBlocks_missing_file_error (stepElement : Child)
    (pre post : List Child) (c : Child) (ps ps' : ProjectState)
    (acc : List Child)
    (hchildren : childrenOf stepElement = pre ++ c :: post)
    (hpre : swapBlocksGo pre ps = .ok (acc, ps'))
    (hcb : isCodeBlock c = true) (hsh : isShellCommand c = false)
    (habs : psHas ps' (parseCodeBlockProps c).fileName = false) :
    swapCodeBlocks stepElement ps
        = .error (missingFileMessage (parseCodeBlockProps c).language
            (parseCodeBlockProps c).code)
      ∧ (∃ u v, missingFileMessage (parseCodeBlockProps c).language
            (parseCodeBlockProps c).code
          = u ++ ((parseCodeBlockProps c).language ++ v))
      ∧ (∃ u v, missingFileMessage (parseCodeBlockProps c).language
            (parseCodeBlockProps c).code
          = u ++ ((parseCodeBlockProps c).code ++ v)) := by
  have hget : psGet ps' (parseCodeBlockProps c).fileName = none :=
    (psHas_eq_false_iff _ _).mp habs
  have hswap : swapBlock c ps'
      = .error (missingFileMessage (parseCodeBlockProps c).language
          (parseCodeBlockProps c).code) := by
    cases c with
    | elem t ch sn ts => simp [isCodeBlock] at hcb
    | editor a d pj => simp [isCodeBlock] at hcb
    | codeBlock f code lang sh =>
      cases sh with
      | true => simp [isShellCommand] at hsh
      | false =>
        simp only [parseCodeBlockProps] at hget
        simp [swapBlock, isCodeBlock, isShellCommand, parseCodeBlockProps,
          hget]
  refine ⟨?_, ?_, ?_⟩
  · unfold swapCodeBlocks
    rw [hchildren, swapBlocksGo_append, hpre]
    dsimp only
    rw [show swapBlocksGo (c :: post) ps'
          = .error (missingFileMessage (parseCodeBlockProps c).language
              (parseCodeBlockProps c).code) from by
        simp [swapBlocksGo, hswap]]
  · exact
      ⟨"The following block does not have a file name that matches the project. Please ensure the code block has a `fileName` specified:\n\n```",
        "\n" ++ (parseCodeBlockProps c).code ++ "\n```\n",
        by simp [missingFileMessage, String.append_assoc]⟩
  · exact
      ⟨"The following block does not have a file name that matches the project. Please ensure the code block has a `fileName` specified:\n\n```"
          ++ (parseCodeBlockProps c).language ++ "\n",
        "\n```\n",
        by simp [missingFileMessage, String.append_assoc]⟩

theorem swapCodeBlocks_missing_file_error_witness :
    swapCodeBlocks
        (Child.elem "TutorialStep"
          [Child.codeBlock (some "app.js") "x" "js" false] none none) []
        = .error (missingFileMessage "js" "x")
      ∧ (∃ u v, missingFileMessage "js" "x" = u ++ ("js" ++ v))
      ∧ (∃ u v, missingFileMessage "js" "x" = u ++ ("x" ++ v)) :=
  swapCodeBlocks_missing_file_error
    (Child.elem "TutorialStep"
      [Child.codeBlock (some "app.js") "x" "js" false] none none)
    [] [] (Child.codeBlock (some "app.js") "x" "js" false) [] [] []
    rfl rfl rfl rfl rfl

/-- C2: evaluation at the failing input. In the sectioned child sequence
`[TutorialStep, TutorialSection]` the first child is a bare `TutorialStep`
outside every section, yet `validateChildren` accepts the sequence: the
unconditional `children.slice(1)` (Tutorial.js line 193) drops the first
child before the section check although no `Project` element occupies that
position. With a leading `Project` element — the only case the slice is
built for — the same bare step is detected. -/
theorem validateChildren_misses_leading_step :
    validateChildren
        [Child.elem "TutorialStep" [] none none,
          Child.elem "TutorialSection" [] none none]
        = .ok ()
      ∧ validateChildren
          [Child.elem "Project" [] none none,
            Child.elem "TutorialStep" [] none none,
            Child.elem "TutorialSection" [] none none]
          = .error stepOutsideSectionMessage :=
  ⟨rfl, rfl⟩

/-- C3: whenever `validateChildren` rejects the child sequence, the
`Tutorial` render propagates that error and produces no assembled node
sequence (the validation call sits before all assembly, per the
spec-modelled placement of the `useOnMount` callback). -/
theorem tutorial_aborts_on_validation_error (children : List Child)
    (e : String) (h : validateChildren children = .error e) :
    Tutorial children = .error e := by
  unfold Tutorial
  rw [h]

theorem tutorial_aborts_on_validation_error_witness :
    Tutorial
        [Child.elem "TutorialStep" [] none none,
          Child.elem "Project" [] none none]
        = .error projectNotFirstMessage :=
  tutorial_aborts_on_validation_error
    [Child.elem "TutorialStep" [] none none,
      Child.elem "Project" [] none none]
    projectNotFirstMessage rfl

/-- C4: on every non-raising step sequence, `gatherSteps` returns one
output step per input step, and the `i`-th output is the `i`-th input
cloned with its post-substitution children, `stepNumber = i + 1`
(contiguous 1-based ordinals in the original order) and `totalSteps`
equal to the count of those post-substitution children. -/
theorem gatherSteps_ordinals (cs : List Child) (ps : ProjectState)
    (steps : List Child) (psF : ProjectState)
    (h : gatherSteps cs ps = .ok (steps, psF)) :
    steps.length = cs.length ∧
    ∀ i (hi : i < cs.length) (hi' : i < steps.length),
      ∃ subbed psIn psOut,
        swapCodeBlocks (cs.get ⟨i, hi⟩) psIn = .ok (subbed, psOut) ∧
        steps.get ⟨i, hi'⟩
          = setStepProps (cs.get ⟨i, hi⟩) subbed (i + 1) subbed.length := by
  obtain ⟨hlen, hget⟩ := gatherStepsGo_spec cs ps 0 steps psF h
  refine ⟨hlen, fun i hi hi' => ?_⟩
  obtain ⟨subbed, psIn, psOut, hswap, hstep⟩ := hget i hi hi'
  exact ⟨subbed, psIn, psOut, hswap, by simpa using hstep⟩

theorem gatherSteps_ordinals_witness :
    (([Child.elem "TutorialStep" [] (some 1) (some 0),
        Child.elem "TutorialStep" [] (some 2) (some 0)] : List Child).length
      = ([Child.elem "TutorialStep" [] none none,
          Child.elem "TutorialStep" [] none none] : List Child).length)
    ∧ ∀ i (hi : i < ([Child.elem "TutorialStep" [] none none,
          Child.elem "TutorialStep" [] none none] : List Child).length)
        (hi' : i < ([Child.elem "TutorialStep" [] (some 1) (some 0),
          Child.elem "TutorialStep" [] (some 2) (some 0)] : List Child).length),
        ∃ subbed psIn psOut,
          swapCodeBlocks
              (([Child.elem "TutorialStep" [] none none,
                Child.elem "TutorialStep" [] none none]
                : List Child).get ⟨i, hi⟩) psIn
            = .ok (subbed, psOut) ∧
          ([Child.elem "TutorialStep" [] (some 1) (some 0),
            Child.elem "TutorialStep" [] (some 2) (some 0)]
            : List Child).get ⟨i, hi'⟩
            = setStepProps
                (([Child.elem "TutorialStep" [] none none,
                  Child.elem "TutorialStep" [] none none]
                  : List Child).get ⟨i, hi⟩)
                subbed (i + 1) subbed.length :=
  gatherSteps_ordinals
    [Child.elem "TutorialStep" [] none none,
      Child.elem "TutorialStep" [] none none]
    []
    [Child.elem "TutorialStep" [] (some 1) (some 0),
      Child.elem "TutorialStep" [] (some 2) (some 0)]
    [] rfl

/-- C5 counterexample: substituting a code block whose new code equals the
file's previous code (`"a"` for `index.js`) emits an editor node whose
diff is not the empty list — it is the single unchanged context run
`"a"` — so "the diff is empty", read literally, fails. -/
theorem diff_unchanged_not_empty_counterexample :
    swapCodeBlocks
        (Child.elem "TutorialStep"
          [Child.codeBlock (some "index.js") "a" "js" false] none none)
        [(some "index.js", ⟨"a", "js"⟩)]
      = .ok
          ([Child.editor (some "index.js") [⟨"a", false, false⟩]
              [(some "index.js", ⟨"a", "js"⟩)]],
            [(some "index.js", ⟨"a", "js"⟩)])
      ∧ ([⟨"a", false, false⟩] : List DiffPart) ≠ [] :=
  ⟨rfl, by simp⟩

/-- C5 amended: for every file of the current project state and every
qualifying code block whose new code equals the file's previous code, the
substitution succeeds and the diff carried by the emitted editor node
(`diffLines prevCode newCode`) contains no added and no removed parts —
it is empty as a set of changes, consisting only of unchanged context
runs. -/
theorem diff_unchanged_no_changes (ps : ProjectState) (f : Option String)
    (l : String) (fs : FileState) (h : psGet ps f = some fs) :
    ∃ ps',
      swapBlock (Child.codeBlock f fs.code l false) ps
          = .ok (Child.editor f (diffLines fs.code fs.code) ps', ps')
        ∧ ∀ p ∈ diffLines fs.code fs.code,
            p.added = false ∧ p.removed = false := by
  refine ⟨psSet (clone ps) f ⟨fs.code, l⟩, ?_, diffLines_self fs.code⟩
  simp [swapBlock, isCodeBlock, isShellCommand, parseCodeBlockProps, h]

theorem diff_unchanged_no_changes_witness :
    ∃ ps',
      swapBlock
          (Child.codeBlock (some "index.js") "a" "js" false)
          [(some "index.js", ⟨"a", "js"⟩)]
          = .ok
              (Child.editor (some "index.js") (diffLines "a" "a") ps', ps')
        ∧ ∀ p ∈ diffLines "a" "a", p.added = false ∧ p.removed = false :=
  diff_unchanged_no_changes [(some "index.js", ⟨"a", "js"⟩)]
    (some "index.js") "js" ⟨"a", "js"⟩ rfl

/-- C6: looking any file name up in the state built by
`parseProjectStateFromConfig` gives exactly the `{code, language}` of the
first non-shell code-block child of the config carrying that name — so
the mapping is built from exactly those children, the first occurrence of
each file name wins, and later duplicates are ignored. -/
theorem parseProjectStateFromConfig_firstWins (configElement : Child)
    (f : Option String) :
    psGet (parseProjectStateFromConfig configElement) f
      = (((childrenOf configElement).filter
            (fun child => isCodeBlock child && !isShellCommand child)).find?
          (fun child => (parseCodeBlockProps child).fileName == f)).map
          (fun child =>
            ⟨(parseCodeBlockProps child).code,
              (parseCodeBlockProps child).language⟩) := by
  have := foldl_firstWins_get
    (fun child =>
      (⟨(parseCodeBlockProps child).code,
        (parseCodeBlockProps child).language⟩ : FileState))
    ((childrenOf configElement).filter
      (fun child => isCodeBlock child && !isShellCommand child))
    [] f
  simpa [parseProjectStateFromConfig, psGet] using this

/-- C7: looking any file name up in the state built by
`parseProjectStateFromChildren` gives empty code paired with the language
of the first step/section code block (in document order) carrying that
name — each distinct file name is seeded at its first occurrence with
empty code and that occurrence's language. -/
theorem parseProjectStateFromChildren_firstWins (children : List Child)
    (f : Option String) :
    psGet (parseProjectStateFromChildren children) f
      = ((children.flatMap codeBlocksOfChild).find?
          (fun cb => (parseCodeBlockProps cb).fileName == f)).map
          (fun cb => ⟨"", (parseCodeBlockProps cb).language⟩) := by
  have := foldl_firstWins_get
    (fun cb => (⟨"", (parseCodeBlockProps cb).language⟩ : FileState))
    (children.flatMap codeBlocksOfChild) [] f
  simpa [parseProjectStateFromChildren, psGet] using this

/-- C8: a successful code-block substitution advances the project state by
copy-on-write: the new snapshot `psSet (clone ps) f {code, language}`
carried by the emitted editor node maps the referenced file to the new
code and language, agrees with the previous snapshot on every other file
name, and the previous snapshot — an immutable value of the embedding, as
the `clone` of the source's `new Map(map)` guarantees for the JavaScript —
is never mutated. -/
theorem swapBlock_copy_on_write (ps : ProjectState) (f : Option String)
    (code l : String) (fs : FileState) (h : psGet ps f = some fs) :
    swapBlock (Child.codeBlock f code l false) ps
        = .ok
            (Child.editor f (diffLines fs.code code)
              (psSet (clone ps) f ⟨code, l⟩),
              psSet (clone ps) f ⟨code, l⟩)
      ∧ psGet (psSet (clone ps) f ⟨code, l⟩) f = some ⟨code, l⟩
      ∧ ∀ f', f' ≠ f →
          psGet (psSet (clone ps) f ⟨code, l⟩) f' = psGet ps f' := by
  refine ⟨?_, ?_, ?_⟩
  · simp [swapBlock, isCodeBlock, isShellCommand, parseCodeBlockProps, h]
  · simp [clone, psGet_psSet]
  · intro f' hf
    simp [clone, psGet_psSet, Ne.symm hf]

theorem swapBlock_copy_on_write_witness :
    swapBlock (Child.codeBlock (some "index.js") "b" "js" false)
        [(some "index.js", ⟨"a", "js"⟩), (some "other.js", ⟨"o", "sh"⟩)]
        = .ok
            (Child.editor (some "index.js") (diffLines "a" "b")
              (psSet
                (clone
                  [(some "index.js", ⟨"a", "js"⟩),
                    (some "other.js", ⟨"o", "sh"⟩)])
                (some "index.js") ⟨"b", "js"⟩),
              psSet
                (clone
                  [(some "index.js", ⟨"a", "js"⟩),
                    (some "other.js", ⟨"o", "sh"⟩)])
                (some "index.js") ⟨"b", "js"⟩)
      ∧ psGet
          (psSet
            (clone
              [(some "index.js", ⟨"a", "js"⟩),
                (some "other.js", ⟨"o", "sh"⟩)])
            (some "index.js") ⟨"b", "js"⟩)
          (some "index.js") = some ⟨"b", "js"⟩
      ∧ ∀ f', f' ≠ some "index.js" →
          psGet
            (psSet
              (clone
                [(some "index.js", ⟨"a", "js"⟩),
                  (some "other.js", ⟨"o", "sh"⟩)])
              (some "index.js") ⟨"b", "js"⟩)
            f'
          = psGet
              [(some "index.js", ⟨"a", "js"⟩),
                (some "other.js", ⟨"o", "sh"⟩)]
              f' :=
  swapBlock_copy_on_write
    [(some "index.js", ⟨"a", "js"⟩), (some "other.js", ⟨"o", "sh"⟩)]
    (some "index.js") "b" "js" ⟨"a", "js"⟩ rfl

/-- C9: with a `Project` config defining `index.js` with code `"a"` and a
step containing a code block for `index.js` with code `"b"`: the parsed
config state maps `index.js` to `"a"`; substituting the step's block emits
an editor node focused on `index.js` whose line diff removes `"a"` and
adds `"b"`; the state after the step maps `index.js` to `"b"`; and the
whole `Tutorial` render returns that step annotated as step 1 of 1. -/
theorem tutorial_example_index_js :
    parseProjectStateFromConfig
        (Child.elem "Project"
          [Child.codeBlock (some "index.js") "a" "js" false] none none)
        = [(some "index.js", ⟨"a", "js"⟩)]
      ∧ swapCodeBlocks
          (Child.elem "TutorialStep"
            [Child.codeBlock (some "index.js") "b" "js" false] none none)
          [(some "index.js", ⟨"a", "js"⟩)]
          = .ok
              ([Child.editor (some "index.js")
                  [⟨"a", false, true⟩, ⟨"b", true, false⟩]
                  [(some "index.js", ⟨"b", "js"⟩)]],
                [(some "index.js", ⟨"b", "js"⟩)])
      ∧ psGet [(some "index.js", ⟨"b", "js"⟩)] (some "index.js")
          = some ⟨"b", "js"⟩
      ∧ Tutorial
          [Child.elem "Project"
            [Child.codeBlock (some "index.js") "a" "js" false] none none,
            Child.elem "TutorialStep"
              [Child.codeBlock (some "index.js") "b" "js" false] none none]
          = .ok
              [Child.elem "TutorialStep"
                [Child.editor (some "index.js")
                  [⟨"a", false, true⟩, ⟨"b", true, false⟩]
                  [(some "index.js", ⟨"b", "js"⟩)]]
                (some 1) (some 1)] :=
  ⟨rfl, rfl, rfl, rfl⟩

/-- C10: in the section assembly, a child that is not a `TutorialSection`
is passed through to the output unchanged, in place, and the project state
threaded into the children after it is exactly the state produced by the
children before it — non-section children never advance the state. -/
theorem gatherSections_passthrough (pre post : List Child) (c : Child)
    (ps : ProjectState) (h : isMdxType c "TutorialSection" = false) :
    gatherSectionsGo (pre ++ c :: post) ps
      = match gatherSectionsGo pre ps with
        | .error e => .error e
        | .ok (els, ps') =>
          match gatherSectionsGo post ps' with
          | .error e => .error e
          | .ok (els', psF) => .ok (els ++ c :: els', psF) := by
  rw [gatherSectionsGo_append]
  cases gatherSectionsGo pre ps with
  | error e => rfl
  | ok x =>
    obtain ⟨els, ps'⟩ := x
    dsimp only
    rw [show gatherSectionsGo (c :: post) ps'
          = match gatherSectionsGo post ps' with
            | .error e => .error e
            | .ok (els', psF) => .ok (c :: els', psF) from by
        simp [gatherSectionsGo, h]]
    cases gatherSectionsGo post ps' with
    | error e => rfl
    | ok y => obtain ⟨els', psF⟩ := y; rfl

theorem gatherSections_passthrough_witness :
    gatherSectionsGo
        ([] ++ Child.elem "p" [] none none
          :: [Child.elem "TutorialSection" [] none none]) []
      = match gatherSectionsGo [] ([] : ProjectState) with
        | .error e => .error e
        | .ok (els, ps') =>
          match gatherSectionsGo
              [Child.elem "TutorialSection" [] none none] ps' with
          | .error e => .error e
          | .ok (els', psF) =>
            .ok (els ++ Child.elem "p" [] none none :: els', psF) :=
  gatherSections_passthrough []
    [Child.elem "TutorialSection" [] none none]
    (Child.elem "p" [] none none) [] rfl

end DevSite

